import Mathlib

/-!
Verification development for the `codedash` typing-trainer (`src/main.py`).

The typing-session state machine (`main`), the scroll planner
(`calculate_scroll_window`), the per-character render classification
(`display_text_with_cursor`) and the metrics calculator
(`calculate_metrics`) are shallowly embedded below.  Strings are
`List Char`; Python's exact real arithmetic on the metrics formulas is
modelled over `ℚ`; the missed-character dictionary is a total function
`Char → ℕ` (a `defaultdict(int)`).  Buffer indexing uses `List.getD`
with an arbitrary default; inside the program every index that Python
evaluates is in range, so the default is never observed on reachable
states.
-/

namespace CodeDash

/-- Arbitrary default character used to make list indexing total. -/
def defCh : Char := Char.ofNat 0

/-- Python `c in ('\t', ' ')` — the characters that count as indentation. -/
def isIndentChar (c : Char) : Bool := c = '\t' || c = ' '

/-- Leading run of tabs/spaces of a line (the `for c in line: ... break` loops). -/
def leadingIndent (line : List Char) : List Char := line.takeWhile isIndentChar

/-- Python slice `l[a:b]` (for `0 ≤ a`, `0 ≤ b`). -/
def pySlice (l : List Char) (a b : ℕ) : List Char := (l.take b).drop a

/-- Helper for `findNL`: first index (counting from `i`) holding a newline. -/
def findNLAux : List Char → ℕ → Option ℕ
  | [], _ => none
  | c :: cs, i => if c = '\n' then some i else findNLAux cs (i + 1)

/-- Python `s.find('\n', start)`, as an `Option` (Python returns `-1` on failure). -/
def findNL (l : List Char) (start : ℕ) : Option ℕ :=
  (findNLAux (l.drop start) 0).map (· + start)

/-- Python `s.find('\n', start) if '\n' in s[start:] else len(s)` — the end of the line
beginning at `start`. -/
def lineEndFrom (l : List Char) (start : ℕ) : ℕ := (findNL l start).getD l.length

/-- Helper for `rfindNL`: last newline index seen so far. -/
def rfindNLAux : List Char → ℕ → Option ℕ → Option ℕ
  | [], _, acc => acc
  | c :: cs, i, acc => rfindNLAux cs (i + 1) (if c = '\n' then some i else acc)

/-- Python `s.rfind('\n', 0, stop)`, as an `Option`. -/
def rfindNL (l : List Char) (stop : ℕ) : Option ℕ := rfindNLAux (l.take stop) 0 none

/-- Python `target_text.rfind('\n', 0, current_pos) + 1` — start of the current line. -/
def lineStartAt (target : List Char) (pos : ℕ) : ℕ :=
  match rfindNL target pos with
  | some i => i + 1
  | none => 0

/-- The `current_indent` of the Enter handler: leading whitespace of the line the
cursor is on. -/
def currentIndentAt (target : List Char) (pos : ℕ) : List Char :=
  leadingIndent (pySlice target (lineStartAt target pos)
    (lineEndFrom target (lineStartAt target pos)))

/-- The `next_indent` of the Enter handler: leading whitespace of
`target_text[current_pos + 1 : next_line_end]`. -/
def nextIndentAt (target : List Char) (pos : ℕ) : List Char :=
  leadingIndent (pySlice target (pos + 1) (lineEndFrom target (pos + 1)))

/-- The mutable session state of `main`'s typing loop. -/
structure SessionState where
  typed : List Char
  current_pos : ℕ
  all_typed_chars : ℕ
  wrong_typed_chars : ℕ
  missed_chars : Char → ℕ

/-- Initial state: `typed_text = ""`, `current_pos = 0`, counters zero, empty histogram. -/
def initState : SessionState := ⟨[], 0, 0, 0, fun _ => 0⟩

/-- Histogram update `missed_chars[c] += 1` on a `defaultdict(int)`. -/
def bump (m : Char → ℕ) (c : Char) : Char → ℕ :=
  fun x => if x = c then m x + 1 else m x

/-- The four input events the loop distinguishes besides Ctrl+C:
any printable character, backspace (127), tab, and enter (`'\n'`/`'\r'`). -/
inductive Event where
  | printable (c : Char)
  | backspace
  | tab
  | enter

/-- One iteration of the correctness-bookkeeping loop body
`if i >= len(target) or typed[i] != target[i]: wrong += 1; if i < len(target):
missed[target[i]] += 1`. -/
def checkPos1 (target typed : List Char) (i w : ℕ) (m : Char → ℕ) :
    ℕ × (Char → ℕ) :=
  if target.length ≤ i ∨ typed.getD i defCh ≠ target.getD i defCh then
    (w + 1, if i < target.length then bump m (target.getD i defCh) else m)
  else (w, m)

/-- Loop `for i in range(lo, lo + n): ...` over the check body, threading the
wrong-character counter and the histogram. -/
def checkRun (target typed : List Char) : ℕ → ℕ → ℕ × (Char → ℕ) → ℕ × (Char → ℕ)
  | _, 0, wm => wm
  | lo, n + 1, (w, m) => checkRun target typed (lo + 1) n (checkPos1 target typed lo w m)

/-- The printable-character branch of the event dispatch. -/
def applyPrintable (target : List Char) (s : SessionState) (c : Char) : SessionState :=
  { typed := s.typed ++ [c],
    current_pos := s.current_pos + 1,
    all_typed_chars := s.all_typed_chars + 1,
    wrong_typed_chars :=
      if target.length ≤ s.current_pos ∨ c ≠ target.getD s.current_pos defCh then
        s.wrong_typed_chars + 1
      else s.wrong_typed_chars,
    missed_chars :=
      if (target.length ≤ s.current_pos ∨ c ≠ target.getD s.current_pos defCh) ∧
          s.current_pos < target.length then
        bump s.missed_chars (target.getD s.current_pos defCh)
      else s.missed_chars }

/-- The backspace branch: `if typed_text: typed_text = typed_text[:-1];
current_pos = max(0, current_pos - 1)` (counters untouched). -/
def applyBackspace (s : SessionState) : SessionState :=
  if s.typed = [] then s
  else { s with typed := s.typed.dropLast, current_pos := s.current_pos - 1 }

/-- The tab branch: insert two spaces, check positions
`range(current_pos, min(current_pos + 2, len(target)))`, advance by 2. -/
def applyTab (target : List Char) (s : SessionState) : SessionState :=
  let typed2 := s.typed ++ [' ', ' ']
  let wm := checkRun target typed2 s.current_pos
    (min (s.current_pos + 2) target.length - s.current_pos)
    (s.wrong_typed_chars, s.missed_chars)
  { typed := typed2,
    current_pos := s.current_pos + 2,
    all_typed_chars := s.all_typed_chars + 2,
    wrong_typed_chars := wm.1,
    missed_chars := wm.2 }

/-- The Enter/autoindent branch. -/
def applyEnter (target : List Char) (s : SessionState) : SessionState :=
  let ci := currentIndentAt target s.current_pos
  if (nextIndentAt target s.current_pos).length < ci.length then
    let typed2 := s.typed ++ ['\n']
    let wm := checkPos1 target typed2 s.current_pos s.wrong_typed_chars s.missed_chars
    { typed := typed2,
      current_pos := s.current_pos + 1,
      all_typed_chars := s.all_typed_chars + 1,
      wrong_typed_chars := wm.1,
      missed_chars := wm.2 }
  else
    let block := '\n' :: ci
    let typed2 := s.typed ++ block
    let wm := checkRun target typed2 s.current_pos
      (min (s.current_pos + block.length) target.length - s.current_pos)
      (s.wrong_typed_chars, s.missed_chars)
    { typed := typed2,
      current_pos := s.current_pos + block.length,
      all_typed_chars := s.all_typed_chars + block.length,
      wrong_typed_chars := wm.1,
      missed_chars := wm.2 }

/-- The event dispatch of the main loop body. -/
def applyEvent (target : List Char) (s : SessionState) : Event → SessionState
  | .printable c => applyPrintable target s c
  | .backspace => applyBackspace s
  | .tab => applyTab target s
  | .enter => applyEnter target s

/-- Apply a list of events unconditionally. -/
def runEvents (target : List Char) (es : List Event) (s : SessionState) : SessionState :=
  es.foldl (applyEvent target) s

/-- The main loop `while current_pos < len(target_text)`: consume the next
event only while the guard holds, stop (returning the state) otherwise. -/
def runSession (target : List Char) : List Event → SessionState → SessionState
  | [], s => s
  | e :: es, s =>
    if s.current_pos < target.length then runSession target es (applyEvent target s e)
    else s

/-- The dictionary returned by `calculate_metrics`. -/
structure Metrics where
  total_chars : ℕ
  typed_chars : ℕ
  correct_chars : ℕ
  all_typed_chars : ℕ
  wrong_typed_chars : ℕ
  wpm : ℚ
  accuracy : ℚ
  time : ℚ

/-- Python `sum(1 for i, c in enumerate(typed_text) if i < len(target_text) and
c == target_text[i])`. -/
def correctCount (target typed : List Char) : ℕ :=
  (List.range typed.length).countP fun i =>
    decide (i < target.length) && (typed.getD i defCh == target.getD i defCh)

/-- The source's `calculate_metrics`, with exact rational arithmetic in place of floats. -/
def calculate_metrics (target typed : List Char) (elapsed : ℚ) (all wrong : ℕ) :
    Metrics :=
  let minutes : ℚ := elapsed / 60
  let correct := correctCount target typed
  let accuracy : ℚ := if 0 < all then (correct : ℚ) / all * 100 else 0
  let wpm : ℚ :=
    if 0 < minutes then ((all : ℚ) - wrong) / 5 / minutes * accuracy / 100 else 0
  ⟨target.length, typed.length, correct, all, wrong, wpm, accuracy, elapsed⟩

/-- Python `s.split('\n')` (always at least one piece). -/
def splitNL : List Char → List (List Char)
  | [] => [[]]
  | c :: cs =>
    if c = '\n' then [] :: splitNL cs
    else
      match splitNL cs with
      | [] => [[c]]
      | h :: t => (c :: h) :: t

/-- The cursor-line loop of `calculate_scroll_window`: walk cumulative
character counts (`+1` per newline); `cursor_line` stays `0` if no line breaks
the loop. -/
def cursorLineAux : List (List Char) → ℕ → ℕ → ℕ → ℕ
  | [], _, _, _ => 0
  | l :: ls, pos, cc, idx =>
    if pos ≤ cc + l.length then idx
    else cursorLineAux ls pos (cc + l.length + 1) (idx + 1)

/-- The source's `calculate_scroll_window(target_text, current_pos, terminal_height)`.
`ℤ` arithmetic with floor division mirrors Python's `//` also when the
terminal is shorter than the 5 reserved header lines. -/
def calculate_scroll_window (target : List Char) (current_pos : ℕ)
    (terminal_height : ℤ) : ℤ × ℤ :=
  let lines := splitNL target
  let available : ℤ := terminal_height - 5
  let cursor_line : ℤ := (cursorLineAux lines current_pos 0 0 : ℕ)
  let center_offset : ℤ := Int.fdiv available 2
  let start_line : ℤ := max 0 (cursor_line - center_offset)
  let end_line : ℤ := min (lines.length : ℤ) (start_line + available)
  let start_line : ℤ :=
    if end_line = (lines.length : ℤ) then max 0 (end_line - available) else start_line
  (start_line, end_line)

/-- The display classification performed per character by
`display_text_with_cursor` (the if/elif/else chain at an absolute offset `p`
whose target character is `c`). -/
inductive CharClass where
  | correct
  | incorrect (typedChar : Char)
  | pendingCursor
  | untouched
  deriving DecidableEq

/-- The classification chain: typed-and-equal → correct; typed-and-different →
incorrect (carrying the actually-typed character); at the cursor →
pending-cursor; otherwise untouched. -/
def classifyChar (typed : List Char) (current_pos p : ℕ) (c : Char) : CharClass :=
  if p < typed.length then
    if typed.getD p defCh = c then .correct else .incorrect (typed.getD p defCh)
  else if p = current_pos then .pendingCursor else .untouched

/-- One rendered line: the classifications of its characters, left to right,
at absolute offsets `line_start + j`. -/
def renderLine (typed : List Char) (current_pos line_start : ℕ)
    (line : List Char) : List CharClass :=
  (List.range line.length).map fun j =>
    classifyChar typed current_pos (line_start + j) (line.getD j defCh)

/-- Condition `end_of_line_pos == current_pos and line_idx < len(lines) - 1` — whether
the synthetic end-of-line marker is drawn highlighted as the pending cursor. -/
def lineHasEolCursor (line_start line_len current_pos : ℕ)
    (is_last_line : Bool) : Bool :=
  (line_start + line_len == current_pos) && !is_last_line

/-- The scroll-window formula as §4.2 of the specification words it, over a
given line count, cursor line and content window size `W`; used to compare
the code's `calculate_scroll_window` against the specified formula. -/
def scrollWindowSpec (lineCount cursorLine w : ℤ) : ℤ × ℤ :=
  let start := max 0 (cursorLine - Int.fdiv w 2)
  let stop := min lineCount (start + w)
  (if stop = lineCount then max 0 (stop - w) else start, stop)

/-- Whether the freshly appended buffer disagrees with the target at `i`. -/
def mismatchAt (target typed : List Char) (i : ℕ) : Bool :=
  typed.getD i defCh != target.getD i defCh

section Helpers

variable {target typed : List Char}

lemma getD_mem {l : List Char} {i : ℕ} (h : i < l.length) (d : Char) :
    l.getD i d ∈ l := by
  rw [List.getD_eq_getElem l d h]
  exact List.getElem_mem h

lemma length_takeWhile_le (p : Char → Bool) (l : List Char) :
    (l.takeWhile p).length ≤ l.length := by
  induction l with
  | nil => simp [List.takeWhile]
  | cons a l ih =>
    by_cases h : p a
    · simp only [List.takeWhile, h, List.length_cons]
      omega
    · simp [List.takeWhile, h]

lemma nextIndentAt_length_le (target : List Char) (pos : ℕ) :
    (nextIndentAt target pos).length ≤ target.length - (pos + 1) := by
  unfold nextIndentAt leadingIndent pySlice
  refine le_trans (length_takeWhile_le _ _) ?_
  rw [List.length_drop, List.length_take]
  omega

lemma bump_le (m : Char → ℕ) (c x : Char) : m x ≤ bump m c x := by
  unfold bump
  split <;> omega

lemma bump_support {m : Char → ℕ} {c x : Char} (h : bump m c x ≠ m x) : x = c := by
  by_contra hx
  exact h (if_neg hx)

lemma checkPos1_fst_le (i w : ℕ) (m : Char → ℕ) :
    w ≤ (checkPos1 target typed i w m).1 := by
  unfold checkPos1
  split <;> simp

lemma checkPos1_snd_le (i w : ℕ) (m : Char → ℕ) (c : Char) :
    m c ≤ (checkPos1 target typed i w m).2 c := by
  unfold checkPos1
  split
  · dsimp only
    split
    · exact bump_le m _ c
    · exact le_refl _
  · exact le_refl _

lemma checkPos1_support {i w : ℕ} {m : Char → ℕ} {c : Char}
    (h : (checkPos1 target typed i w m).2 c ≠ m c) : c ∈ target := by
  unfold checkPos1 at h
  split at h
  · dsimp only at h
    split at h
    · next hi => exact bump_support h ▸ getD_mem hi defCh
    · exact absurd rfl h
  · exact absurd rfl h

lemma checkRun_zero (lo : ℕ) (wm : ℕ × (Char → ℕ)) :
    checkRun target typed lo 0 wm = wm := rfl

lemma checkRun_succ (lo n w : ℕ) (m : Char → ℕ) :
    checkRun target typed lo (n + 1) (w, m) =
      checkRun target typed (lo + 1) n (checkPos1 target typed lo w m) := rfl

lemma checkRun_fst_le (n : ℕ) : ∀ (lo w : ℕ) (m : Char → ℕ),
    w ≤ (checkRun target typed lo n (w, m)).1 := by
  induction n with
  | zero => intro lo w m; exact le_refl w
  | succ n ih =>
    intro lo w m
    rw [checkRun_succ]
    have h1 := @checkPos1_fst_le target typed lo w m
    have h2 := ih (lo + 1) (checkPos1 target typed lo w m).1
      (checkPos1 target typed lo w m).2
    rw [Prod.mk.eta] at h2
    exact le_trans h1 h2

lemma checkRun_snd_le (n : ℕ) : ∀ (lo w : ℕ) (m : Char → ℕ) (c : Char),
    m c ≤ (checkRun target typed lo n (w, m)).2 c := by
  induction n with
  | zero => intro lo w m c; exact le_refl _
  | succ n ih =>
    intro lo w m c
    rw [checkRun_succ]
    have h1 := @checkPos1_snd_le target typed lo w m c
    have h2 := ih (lo + 1) (checkPos1 target typed lo w m).1
      (checkPos1 target typed lo w m).2 c
    rw [Prod.mk.eta] at h2
    exact le_trans h1 h2

lemma checkRun_support (n : ℕ) : ∀ {lo w : ℕ} {m : Char → ℕ} {c : Char},
    (checkRun target typed lo n (w, m)).2 c ≠ m c → c ∈ target := by
  induction n with
  | zero => intro lo w m c h; exact absurd rfl h
  | succ n ih =>
    intro lo w m c h
    rw [checkRun_succ] at h
    by_cases hm : (checkPos1 target typed lo w m).2 c = m c
    · refine @ih (lo + 1) (checkPos1 target typed lo w m).1
        (checkPos1 target typed lo w m).2 c ?_
      rw [Prod.mk.eta, hm]
      exact h
    · exact checkPos1_support hm

lemma mismatchAt_iff (i : ℕ) :
    mismatchAt target typed i = true ↔ typed.getD i defCh ≠ target.getD i defCh := by
  simp [mismatchAt]

lemma checkPos1_of_lt {i : ℕ} (hi : i < target.length) (w : ℕ) (m : Char → ℕ) :
    checkPos1 target typed i w m =
      if mismatchAt target typed i then
        (w + 1, bump m (target.getD i defCh))
      else (w, m) := by
  unfold checkPos1
  by_cases hmm : typed.getD i defCh = target.getD i defCh
  · have h2 : mismatchAt target typed i = false := by
      simpa [mismatchAt] using hmm
    have h1 : ¬ (target.length ≤ i ∨ typed.getD i defCh ≠ target.getD i defCh) := by
      push_neg
      exact ⟨by omega, hmm⟩
    rw [if_neg h1, h2]
    simp
  · have h2 : mismatchAt target typed i = true := by
      simpa [mismatchAt] using hmm
    rw [if_pos (Or.inr hmm), h2, if_pos hi]
    simp

lemma checkRun_fst_eq (n : ℕ) : ∀ (lo w : ℕ) (m : Char → ℕ),
    lo + n ≤ target.length →
    (checkRun target typed lo n (w, m)).1 =
      w + (List.range' lo n).countP (mismatchAt target typed) := by
  induction n with
  | zero => intro lo w m _; simp [checkRun_zero]
  | succ n ih =>
    intro lo w m hle
    rw [checkRun_succ, List.range'_succ, List.countP_cons]
    rw [checkPos1_of_lt (by omega) w m]
    by_cases hmm : mismatchAt target typed lo
    · rw [if_pos hmm, ih (lo + 1) (w + 1) _ (by omega)]
      simp [hmm]
      omega
    · rw [if_neg hmm, ih (lo + 1) w m (by omega)]
      simp [hmm]

lemma checkRun_snd_eq (n : ℕ) : ∀ (lo w : ℕ) (m : Char → ℕ) (c : Char),
    lo + n ≤ target.length →
    (checkRun target typed lo n (w, m)).2 c =
      m c + (List.range' lo n).countP
        (fun i => mismatchAt target typed i && (target.getD i defCh == c)) := by
  induction n with
  | zero => intro lo w m c _; simp [checkRun_zero]
  | succ n ih =>
    intro lo w m c hle
    rw [checkRun_succ, List.range'_succ, List.countP_cons]
    rw [checkPos1_of_lt (by omega) w m]
    by_cases hmm : mismatchAt target typed lo
    · rw [if_pos hmm, ih (lo + 1) (w + 1) _ c (by omega), hmm]
      simp only [Bool.true_and, bump]
      by_cases hc : target.getD lo defCh = c
      · rw [if_pos (hc.symm : c = target.getD lo defCh),
          if_pos (beq_iff_eq.mpr hc)]
        omega
      · rw [if_neg (fun h => hc (h.symm : target.getD lo defCh = c)),
          if_neg (by simpa using hc)]
        omega
    · rw [if_neg hmm, ih (lo + 1) w m c (by omega)]
      have hmm2 : mismatchAt target typed lo = false := by
        simpa using hmm
      rw [hmm2]
      simp

lemma applyBackspace_missed (s : SessionState) :
    (applyBackspace s).missed_chars = s.missed_chars := by
  unfold applyBackspace
  split <;> rfl

lemma applyBackspace_counters (s : SessionState) :
    (applyBackspace s).all_typed_chars = s.all_typed_chars ∧
      (applyBackspace s).wrong_typed_chars = s.wrong_typed_chars := by
  unfold applyBackspace
  split <;> exact ⟨rfl, rfl⟩

/-- Zeta-reduced form of `applyEnter`, convenient for case splitting. -/
lemma applyEnter_eq (target : List Char) (s : SessionState) :
    applyEnter target s =
      if (nextIndentAt target s.current_pos).length <
          (currentIndentAt target s.current_pos).length then
        { typed := s.typed ++ ['\n'],
          current_pos := s.current_pos + 1,
          all_typed_chars := s.all_typed_chars + 1,
          wrong_typed_chars := (checkPos1 target (s.typed ++ ['\n']) s.current_pos
            s.wrong_typed_chars s.missed_chars).1,
          missed_chars := (checkPos1 target (s.typed ++ ['\n']) s.current_pos
            s.wrong_typed_chars s.missed_chars).2 }
      else
        { typed := s.typed ++ '\n' :: currentIndentAt target s.current_pos,
          current_pos := s.current_pos +
            ('\n' :: currentIndentAt target s.current_pos).length,
          all_typed_chars := s.all_typed_chars +
            ('\n' :: currentIndentAt target s.current_pos).length,
          wrong_typed_chars := (checkRun target
            (s.typed ++ '\n' :: currentIndentAt target s.current_pos) s.current_pos
            (min (s.current_pos + ('\n' :: currentIndentAt target s.current_pos).length)
              target.length - s.current_pos)
            (s.wrong_typed_chars, s.missed_chars)).1,
          missed_chars := (checkRun target
            (s.typed ++ '\n' :: currentIndentAt target s.current_pos) s.current_pos
            (min (s.current_pos + ('\n' :: currentIndentAt target s.current_pos).length)
              target.length - s.current_pos)
            (s.wrong_typed_chars, s.missed_chars)).2 } := rfl

/-- Zeta-reduced form of `applyTab`. -/
lemma applyTab_eq (target : List Char) (s : SessionState) :
    applyTab target s =
      { typed := s.typed ++ [' ', ' '],
        current_pos := s.current_pos + 2,
        all_typed_chars := s.all_typed_chars + 2,
        wrong_typed_chars := (checkRun target (s.typed ++ [' ', ' ']) s.current_pos
          (min (s.current_pos + 2) target.length - s.current_pos)
          (s.wrong_typed_chars, s.missed_chars)).1,
        missed_chars := (checkRun target (s.typed ++ [' ', ' ']) s.current_pos
          (min (s.current_pos + 2) target.length - s.current_pos)
          (s.wrong_typed_chars, s.missed_chars)).2 } := rfl

/-- In the non-dedent Enter branch, the whole appended block still lies inside
the target: the next line's indentation is at least as long as the block's
indentation and is itself a run of in-range target characters. -/
lemma enter_block_in_range {target : List Char} {pos : ℕ}
    (hpos : pos < target.length)
    (hge : ¬ (nextIndentAt target pos).length < (currentIndentAt target pos).length) :
    pos + (1 + (currentIndentAt target pos).length) ≤ target.length := by
  have h1 := nextIndentAt_length_le target pos
  omega

lemma applyEvent_invariant (target : List Char) (s : SessionState) (e : Event)
    (h : s.current_pos = s.typed.length) :
    (applyEvent target s e).current_pos = (applyEvent target s e).typed.length := by
  cases e with
  | printable c =>
    show (applyPrintable target s c).current_pos = (applyPrintable target s c).typed.length
    simp [applyPrintable, h]
  | backspace =>
    show (applyBackspace s).current_pos = (applyBackspace s).typed.length
    unfold applyBackspace
    split
    · next he => exact h
    · next he =>
      have : s.typed.length ≠ 0 := fun h0 => he (List.length_eq_zero.mp h0)
      simp only [List.length_dropLast]
      omega
  | tab =>
    show (applyTab target s).current_pos = (applyTab target s).typed.length
    rw [applyTab_eq]
    simp [h]
  | enter =>
    show (applyEnter target s).current_pos = (applyEnter target s).typed.length
    rw [applyEnter_eq]
    split
    · simp [h]
    · simp [h]

lemma applyEvent_pos_le (target : List Char) (s : SessionState) (e : Event)
    (h : s.current_pos < target.length) :
    (applyEvent target s e).current_pos ≤ target.length + 1 := by
  cases e with
  | printable c =>
    show (applyPrintable target s c).current_pos ≤ target.length + 1
    simp only [applyPrintable]
    omega
  | backspace =>
    show (applyBackspace s).current_pos ≤ target.length + 1
    unfold applyBackspace
    split
    · omega
    · dsimp only
      omega
  | tab =>
    show (applyTab target s).current_pos ≤ target.length + 1
    rw [applyTab_eq]
    dsimp only
    omega
  | enter =>
    show (applyEnter target s).current_pos ≤ target.length + 1
    rw [applyEnter_eq]
    split
    · dsimp only
      omega
    · next hge =>
      simp only [List.length_cons]
      have := enter_block_in_range h hge
      omega

lemma runSession_nil (target : List Char) (s : SessionState) :
    runSession target [] s = s := rfl

lemma runSession_cons (target : List Char) (e : Event) (es : List Event)
    (s : SessionState) :
    runSession target (e :: es) s =
      if s.current_pos < target.length then
        runSession target es (applyEvent target s e)
      else s := rfl

lemma runSession_pos_le (target : List Char) (es : List Event) :
    ∀ s : SessionState, s.current_pos ≤ target.length + 1 →
      (runSession target es s).current_pos ≤ target.length + 1 := by
  induction es with
  | nil => intro s h; exact h
  | cons e es ih =>
    intro s h
    rw [runSession_cons]
    split
    · next hg => exact ih _ (applyEvent_pos_le target s e hg)
    · exact h

lemma applyEvent_missed_support (target : List Char) (s : SessionState) (e : Event)
    (h : ∀ c, s.missed_chars c ≠ 0 → c ∈ target) :
    ∀ c, (applyEvent target s e).missed_chars c ≠ 0 → c ∈ target := by
  intro c hc
  cases e with
  | printable ch =>
    replace hc : (applyPrintable target s ch).missed_chars c ≠ 0 := hc
    unfold applyPrintable at hc
    dsimp only at hc
    split at hc
    · next hcond =>
      by_cases hb : bump s.missed_chars (target.getD s.current_pos defCh) c
          = s.missed_chars c
      · exact h c (hb ▸ hc)
      · exact bump_support hb ▸ getD_mem hcond.2 defCh
    · exact h c hc
  | backspace =>
    rw [show (applyEvent target s .backspace) = applyBackspace s from rfl,
      applyBackspace_missed] at hc
    exact h c hc
  | tab =>
    replace hc : (applyTab target s).missed_chars c ≠ 0 := hc
    rw [applyTab_eq] at hc
    dsimp only at hc
    by_cases hm : (checkRun target (s.typed ++ [' ', ' ']) s.current_pos
        (min (s.current_pos + 2) target.length - s.current_pos)
        (s.wrong_typed_chars, s.missed_chars)).2 c = s.missed_chars c
    · exact h c (hm ▸ hc)
    · exact checkRun_support _ hm
  | enter =>
    replace hc : (applyEnter target s).missed_chars c ≠ 0 := hc
    rw [applyEnter_eq] at hc
    split at hc
    · dsimp only at hc
      by_cases hm : (checkPos1 target (s.typed ++ ['\n']) s.current_pos
          s.wrong_typed_chars s.missed_chars).2 c = s.missed_chars c
      · exact h c (hm ▸ hc)
      · exact checkPos1_support hm
    · dsimp only at hc
      by_cases hm : (checkRun target
          (s.typed ++ '\n' :: currentIndentAt target s.current_pos) s.current_pos
          (min (s.current_pos + ('\n' :: currentIndentAt target s.current_pos).length)
            target.length - s.current_pos)
          (s.wrong_typed_chars, s.missed_chars)).2 c = s.missed_chars c
      · exact h c (hm ▸ hc)
      · exact checkRun_support _ hm

lemma runSession_missed_support (target : List Char) (es : List Event) :
    ∀ s : SessionState, (∀ c, s.missed_chars c ≠ 0 → c ∈ target) →
      ∀ c, (runSession target es s).missed_chars c ≠ 0 → c ∈ target := by
  induction es with
  | nil => intro s h; exact h
  | cons e es ih =>
    intro s h
    rw [runSession_cons]
    split
    · exact ih _ (applyEvent_missed_support target s e h)
    · exact h

lemma countP_range_guard (m : ℕ) (q : ℕ → Bool) : ∀ n : ℕ,
    (List.range n).countP (fun i => decide (i < m) && q i) =
      (List.range (min n m)).countP q := by
  intro n
  induction n with
  | zero => simp
  | succ n ih =>
    rw [List.range_succ, List.countP_append]
    by_cases h : n < m
    · have hmin : min (n + 1) m = min n m + 1 := by omega
      rw [hmin, List.range_succ, List.countP_append, ih]
      have hmn : min n m = n := by omega
      rw [hmn]
      simp [List.countP_cons, h]
    · have hmin : min (n + 1) m = min n m := by omega
      rw [hmin, ih]
      simp [List.countP_cons, h]

lemma scrollWindowSpec_fst_nonneg (lineCount cursorLine w : ℤ) :
    0 ≤ (scrollWindowSpec lineCount cursorLine w).1 := by
  unfold scrollWindowSpec
  dsimp only
  split
  · exact le_max_left 0 _
  · exact le_max_left 0 _

lemma scrollWindowSpec_snd_le (lineCount cursorLine w : ℤ) :
    (scrollWindowSpec lineCount cursorLine w).2 ≤ lineCount := by
  unfold scrollWindowSpec
  exact min_le_left _ _

lemma scrollWindowSpec_fst_eq_zero {lineCount w : ℤ} (cursorLine : ℤ)
    (h : lineCount ≤ w) :
    (scrollWindowSpec lineCount cursorLine w).1 = 0 := by
  unfold scrollWindowSpec
  dsimp only
  have hstart : (0 : ℤ) ≤ max 0 (cursorLine - Int.fdiv w 2) := le_max_left 0 _
  have hend : min lineCount (max 0 (cursorLine - Int.fdiv w 2) + w) = lineCount := by
    refine min_eq_left ?_
    omega
  rw [if_pos hend]
  omega

end Helpers

/-- C1: on Enter, with the cursor inside the target, the state machine computes
the current line's indentation and the next line's indentation; if the next
line dedents it appends exactly one newline, checks that single position
(incrementing the wrong counter and the histogram on mismatch) and advances
the cursor by 1; otherwise it appends the block newline-plus-indent, checks
each appended position individually (incrementing the wrong counter and the
histogram per mismatched position) and advances the cursor by the block's
length `1 + len(currentIndent)`. -/
theorem enter_autoindent_matches_spec (target : List Char) (s : SessionState)
    (hpos : s.current_pos < target.length) :
    ((nextIndentAt target s.current_pos).length <
        (currentIndentAt target s.current_pos).length →
      (applyEvent target s .enter).typed = s.typed ++ ['\n'] ∧
      (applyEvent target s .enter).current_pos = s.current_pos + 1 ∧
      (applyEvent target s .enter).all_typed_chars = s.all_typed_chars + 1 ∧
      (applyEvent target s .enter).wrong_typed_chars =
        s.wrong_typed_chars +
          (if mismatchAt target (s.typed ++ ['\n']) s.current_pos then 1 else 0) ∧
      ∀ c, (applyEvent target s .enter).missed_chars c =
        s.missed_chars c +
          (if mismatchAt target (s.typed ++ ['\n']) s.current_pos &&
              (target.getD s.current_pos defCh == c) then 1 else 0)) ∧
    (¬ (nextIndentAt target s.current_pos).length <
        (currentIndentAt target s.current_pos).length →
      (applyEvent target s .enter).typed =
        s.typed ++ '\n' :: currentIndentAt target s.current_pos ∧
      (applyEvent target s .enter).current_pos =
        s.current_pos + (1 + (currentIndentAt target s.current_pos).length) ∧
      (applyEvent target s .enter).all_typed_chars =
        s.all_typed_chars + (1 + (currentIndentAt target s.current_pos).length) ∧
      (applyEvent target s .enter).wrong_typed_chars =
        s.wrong_typed_chars +
          (List.range' s.current_pos
            (1 + (currentIndentAt target s.current_pos).length)).countP
            (mismatchAt target
              (s.typed ++ '\n' :: currentIndentAt target s.current_pos)) ∧
      ∀ c, (applyEvent target s .enter).missed_chars c =
        s.missed_chars c +
          (List.range' s.current_pos
            (1 + (currentIndentAt target s.current_pos).length)).countP
            (fun i => mismatchAt target
              (s.typed ++ '\n' :: currentIndentAt target s.current_pos) i &&
              (target.getD i defCh == c))) := by
  have he : applyEvent target s .enter = applyEnter target s := rfl
  constructor
  · intro hlt
    rw [he, applyEnter_eq, if_pos hlt]
    refine ⟨rfl, rfl, rfl, ?_, ?_⟩
    · dsimp only
      rw [checkPos1_of_lt hpos]
      by_cases hmm : mismatchAt target (s.typed ++ ['\n']) s.current_pos
      · rw [if_pos hmm, if_pos hmm]
      · rw [if_neg hmm, if_neg hmm]
        omega
    · intro c
      dsimp only
      rw [checkPos1_of_lt hpos]
      by_cases hmm : mismatchAt target (s.typed ++ ['\n']) s.current_pos
      · rw [if_pos hmm, hmm]
        simp only [Bool.true_and, bump]
        by_cases hc : target.getD s.current_pos defCh = c
        · rw [if_pos (hc.symm : c = target.getD s.current_pos defCh),
            if_pos (by simpa using hc)]
        · rw [if_neg (fun h => hc (h.symm : target.getD s.current_pos defCh = c)),
            if_neg (by simpa using hc)]
          omega
      · have hmm2 : mismatchAt target (s.typed ++ ['\n']) s.current_pos = false := by
          simpa using hmm
        rw [if_neg hmm, hmm2]
        simp
  · intro hge
    rw [he, applyEnter_eq, if_neg hge]
    have hblock := enter_block_in_range hpos hge
    have hlen : ('\n' :: currentIndentAt target s.current_pos).length =
        1 + (currentIndentAt target s.current_pos).length := by
      rw [List.length_cons]
      omega
    have hn : min (s.current_pos + ('\n' :: currentIndentAt target s.current_pos).length)
        target.length - s.current_pos =
        1 + (currentIndentAt target s.current_pos).length := by
      rw [hlen]
      omega
    refine ⟨rfl, ?_, ?_, ?_, ?_⟩
    · dsimp only
      rw [hlen]
    · dsimp only
      rw [hlen]
    · dsimp only
      rw [hn]
      exact checkRun_fst_eq _ _ _ _ (by omega)
    · intro c
      dsimp only
      rw [hn]
      exact checkRun_snd_eq _ _ _ _ c (by omega)

/-- Witness for C1, instantiating Scenario C: target `"  x\n  y"`, cursor 3
just after reproducing `"  x"`; the current indent has length 2, Enter appends
the 3-character block and the cursor advances from 3 to `3 + (1 + 2) = 6`. -/
theorem enter_autoindent_matches_spec_witness :
    (currentIndentAt ("  x\n  y".toList) 3).length = 2 ∧
    (applyEvent ("  x\n  y".toList)
        ⟨"  x".toList, 3, 3, 0, fun _ => 0⟩ .enter).typed =
      "  x".toList ++ '\n' :: currentIndentAt ("  x\n  y".toList) 3 ∧
    (applyEvent ("  x\n  y".toList)
        ⟨"  x".toList, 3, 3, 0, fun _ => 0⟩ .enter).current_pos =
      3 + (1 + (currentIndentAt ("  x\n  y".toList) 3).length) := by
  have h := (enter_autoindent_matches_spec ("  x\n  y".toList)
    ⟨"  x".toList, 3, 3, 0, fun _ => 0⟩ (by decide)).2 (by decide)
  exact ⟨by decide, h.1, h.2.1⟩

/-- C2 counterexample: at `all = 2`, `wrong = 1`, `elapsed = 60` (one minute)
and a typed buffer giving 50% accuracy, the code's wpm is `1/10`, not the
claimed `((all - wrong)/5)/minutes = 1/5`: the code additionally multiplies
by `accuracy/100`. -/
theorem wpm_formula_counterexample :
    (calculate_metrics ['a', 'b'] ['a', 'x'] 60 2 1).wpm ≠
      (((2 : ℚ) - 1) / 5) / (60 / 60) := by
  have hc : correctCount ['a', 'b'] ['a', 'x'] = 1 := by decide
  simp only [calculate_metrics, hc]
  norm_num

/-- C2 amended: for positive elapsed time the wpm equals
`((allTypedChars - wrongTypedChars) / 5) / elapsedMinutes * accuracy / 100`
(the accuracy-scaled formula), and it equals 0 when the elapsed time is 0. -/
theorem wpm_formula_amended (target typed : List Char) (elapsed : ℚ)
    (all wrong : ℕ) :
    (0 < elapsed →
      (calculate_metrics target typed elapsed all wrong).wpm =
        ((all : ℚ) - wrong) / 5 / (elapsed / 60) *
          (calculate_metrics target typed elapsed all wrong).accuracy / 100) ∧
    (elapsed = 0 → (calculate_metrics target typed elapsed all wrong).wpm = 0) := by
  constructor
  · intro h
    have hm : (0 : ℚ) < elapsed / 60 := by positivity
    simp only [calculate_metrics]
    rw [if_pos hm]
  · intro h
    subst h
    simp [calculate_metrics]

/-- Witness for the amended C2 at `elapsed = 60`. -/
theorem wpm_formula_amended_witness :
    (calculate_metrics ['a'] ['a'] 60 1 0).wpm =
      ((1 : ℚ) - 0) / 5 / (60 / 60) *
        (calculate_metrics ['a'] ['a'] 60 1 0).accuracy / 100 :=
  (wpm_formula_amended ['a'] ['a'] 60 1 0).1 (by decide)

/-- C3 counterexample: Tab with target `"a"` at cursor 0 appends two spaces
and advances by 2, but only position 0 (the sole in-range position) is
checked: the out-of-range position 1 is skipped, so `wrongTypedChars` becomes
1, not the 2 the claim's out-of-range-counts-as-mismatch rule demands. -/
theorem tab_out_of_range_counterexample :
    (applyEvent ['a'] initState .tab).typed = [' ', ' '] ∧
    (applyEvent ['a'] initState .tab).current_pos = 2 ∧
    (applyEvent ['a'] initState .tab).wrong_typed_chars = 1 ∧
    (applyEvent ['a'] initState .tab).wrong_typed_chars ≠ 2 := by
  decide

/-- C3 amended: a Tab event always appends exactly two spaces and advances the
cursor by exactly 2; the inserted positions lying inside the target — the
range from the cursor to `min(cursor + 2, len(target))` — are each checked,
incrementing the wrong counter and the histogram per mismatch, while
positions at or beyond the end of the target are skipped entirely. -/
theorem tab_event_amended (target : List Char) (s : SessionState) :
    (applyEvent target s .tab).typed = s.typed ++ [' ', ' '] ∧
    (applyEvent target s .tab).current_pos = s.current_pos + 2 ∧
    (applyEvent target s .tab).all_typed_chars = s.all_typed_chars + 2 ∧
    (applyEvent target s .tab).wrong_typed_chars =
      s.wrong_typed_chars +
        (List.range' s.current_pos
          (min (s.current_pos + 2) target.length - s.current_pos)).countP
          (mismatchAt target (s.typed ++ [' ', ' '])) ∧
    ∀ c, (applyEvent target s .tab).missed_chars c =
      s.missed_chars c +
        (List.range' s.current_pos
          (min (s.current_pos + 2) target.length - s.current_pos)).countP
          (fun i => mismatchAt target (s.typed ++ [' ', ' ']) i &&
            (target.getD i defCh == c)) := by
  have he : applyEvent target s .tab = applyTab target s := rfl
  rw [he, applyTab_eq]
  refine ⟨rfl, rfl, rfl, ?_, ?_⟩
  · dsimp only
    by_cases hp : s.current_pos < target.length
    · exact checkRun_fst_eq _ _ _ _ (by omega)
    · have hn : min (s.current_pos + 2) target.length - s.current_pos = 0 := by
        omega
      rw [hn, checkRun_zero]
      simp
  · intro c
    dsimp only
    by_cases hp : s.current_pos < target.length
    · exact checkRun_snd_eq _ _ _ _ c (by omega)
    · have hn : min (s.current_pos + 2) target.length - s.current_pos = 0 := by
        omega
      rw [hn, checkRun_zero]
      simp

/-- C4: the accuracy is `correctChars / allTypedChars * 100` (0 when
`allTypedChars = 0`), where `correctChars` counts the positions of the final
buffer agreeing with the target; and in the Scenario-B run (target `"ab"`,
events x, backspace, a, b) the counters end at `all = 3`, `wrong = 1` with
final buffer `"ab"`, making the accuracy `200/3 ≈ 66.7`, not 100. -/
theorem accuracy_formula_and_scenario (target typed : List Char) (elapsed : ℚ)
    (all wrong : ℕ) :
    (calculate_metrics target typed elapsed all wrong).accuracy =
      (if 0 < all then (correctCount target typed : ℚ) / all * 100 else 0) ∧
    correctCount target typed =
      (List.range (min typed.length target.length)).countP
        (fun i => typed.getD i defCh == target.getD i defCh) ∧
    (runSession "ab".toList
      [.printable 'x', .backspace, .printable 'a', .printable 'b']
      initState).all_typed_chars = 3 ∧
    (runSession "ab".toList
      [.printable 'x', .backspace, .printable 'a', .printable 'b']
      initState).wrong_typed_chars = 1 ∧
    (runSession "ab".toList
      [.printable 'x', .backspace, .printable 'a', .printable 'b']
      initState).typed = "ab".toList ∧
    (calculate_metrics "ab".toList "ab".toList elapsed 3 1).accuracy = 200 / 3 ∧
    (calculate_metrics "ab".toList "ab".toList elapsed 3 1).accuracy ≠ 100 := by
  have hc : correctCount "ab".toList "ab".toList = 2 := by decide
  refine ⟨rfl, countP_range_guard target.length _ typed.length, by decide,
    by decide, by decide, ?_, ?_⟩
  · simp only [calculate_metrics, hc]
    norm_num
  · simp only [calculate_metrics, hc]
    norm_num

/-- C5: every event advances the cursor by exactly the number of characters
it appends to (or removes from) the typed buffer, so the invariant
`CursorPosition = len(TypedBuffer)` is preserved by every single step and
holds after every run of the session loop from the initial empty state. -/
theorem cursor_eq_typed_length_invariant (target : List Char) :
    (∀ (s : SessionState) (e : Event), s.current_pos = s.typed.length →
      (applyEvent target s e).current_pos = (applyEvent target s e).typed.length) ∧
    ∀ es : List Event,
      (runSession target es initState).current_pos =
        (runSession target es initState).typed.length := by
  refine ⟨applyEvent_invariant target, ?_⟩
  have main : ∀ (es : List Event) (s : SessionState),
      s.current_pos = s.typed.length →
      (runSession target es s).current_pos = (runSession target es s).typed.length := by
    intro es
    induction es with
    | nil => intro s h; exact h
    | cons e es ih =>
      intro s h
      rw [runSession_cons]
      split
      · exact ih _ (applyEvent_invariant target s e h)
      · exact h
  intro es
  exact main es initState rfl

/-- Witness for C5 at a concrete step (tab on the initial state). -/
theorem cursor_eq_typed_length_invariant_witness :
    (applyEvent ['a', 'b'] initState .tab).current_pos =
      (applyEvent ['a', 'b'] initState .tab).typed.length :=
  (cursor_eq_typed_length_invariant ['a', 'b']).1 initState .tab rfl

/-- C6: backspace on a non-empty buffer removes exactly the last character and
decrements the cursor by 1 (the truncated subtraction modelling Python's
`max(0, current_pos - 1)` floor), does nothing on an empty buffer, and leaves
`allTypedChars`, `wrongTypedChars` and the histogram untouched; moreover no
event ever decreases any counter or histogram entry. -/
theorem backspace_frame_effect (target : List Char) (s : SessionState) :
    ((applyEvent target s .backspace).all_typed_chars = s.all_typed_chars ∧
      (applyEvent target s .backspace).wrong_typed_chars = s.wrong_typed_chars ∧
      (applyEvent target s .backspace).missed_chars = s.missed_chars) ∧
    (s.typed = [] → applyEvent target s .backspace = s) ∧
    (s.typed ≠ [] →
      (applyEvent target s .backspace).typed = s.typed.dropLast ∧
      (applyEvent target s .backspace).current_pos = s.current_pos - 1) ∧
    ∀ e : Event,
      s.all_typed_chars ≤ (applyEvent target s e).all_typed_chars ∧
      s.wrong_typed_chars ≤ (applyEvent target s e).wrong_typed_chars ∧
      ∀ c, s.missed_chars c ≤ (applyEvent target s e).missed_chars c := by
  refine ⟨⟨(applyBackspace_counters s).1, (applyBackspace_counters s).2,
    applyBackspace_missed s⟩, ?_, ?_, ?_⟩
  · intro h
    show applyBackspace s = s
    unfold applyBackspace
    rw [if_pos h]
  · intro h
    show (applyBackspace s).typed = s.typed.dropLast ∧
      (applyBackspace s).current_pos = s.current_pos - 1
    unfold applyBackspace
    rw [if_neg h]
    exact ⟨rfl, rfl⟩
  · intro e
    cases e with
    | printable c =>
      refine ⟨Nat.le_succ _, ?_, ?_⟩
      · show s.wrong_typed_chars ≤ (applyPrintable target s c).wrong_typed_chars
        unfold applyPrintable
        dsimp only
        split
        · omega
        · omega
      · intro ch
        show s.missed_chars ch ≤ (applyPrintable target s c).missed_chars ch
        unfold applyPrintable
        dsimp only
        split
        · exact bump_le _ _ _
        · exact le_refl _
    | backspace =>
      exact ⟨(applyBackspace_counters s).1.ge,
        (applyBackspace_counters s).2.ge,
        fun c => (congrFun (applyBackspace_missed s) c).ge⟩
    | tab =>
      rw [show applyEvent target s .tab = applyTab target s from rfl, applyTab_eq]
      exact ⟨by dsimp only; omega, checkRun_fst_le _ _ _ _,
        fun c => checkRun_snd_le _ _ _ _ c⟩
    | enter =>
      rw [show applyEvent target s .enter = applyEnter target s from rfl,
        applyEnter_eq]
      split
      · exact ⟨by dsimp only; omega, checkPos1_fst_le _ _ _,
          fun c => checkPos1_snd_le _ _ _ c⟩
      · exact ⟨by dsimp only; omega, checkRun_fst_le _ _ _ _,
          fun c => checkRun_snd_le _ _ _ _ c⟩

/-- Witness for C6: backspace on a concrete non-empty buffer. -/
theorem backspace_frame_effect_witness :
    (applyEvent ['a'] ⟨['x'], 1, 1, 1, fun _ => 0⟩ .backspace).typed =
      (['x'] : List Char).dropLast ∧
    (applyEvent ['a'] ⟨['x'], 1, 1, 1, fun _ => 0⟩ .backspace).current_pos = 1 - 1 :=
  (backspace_frame_effect ['a'] ⟨['x'], 1, 1, 1, fun _ => 0⟩).2.2.1 (by decide)

/-- C7 counterexample: with target `"a"` a single Tab ends the session with
the cursor at 2, strictly past `len(TargetText) = 1`, so a normally-completed
session need not satisfy `CursorPosition = len(TargetText)`. -/
theorem loop_exit_counterexample :
    (runSession ['a'] [Event.tab] initState).current_pos = 2 ∧
    (runSession ['a'] [Event.tab] initState).current_pos ≠
      (['a'] : List Char).length := by
  decide

/-- C7 amended: the session loop consumes events exactly while
`CursorPosition < len(TargetText)` (once the cursor is at or past the end no
further event is consumed), and after any run from the initial state the
cursor is at most `len(TargetText) + 1` — a Tab fired at position
`len(TargetText) - 1` can leave it one past the end. -/
theorem loop_guard_and_exit_bound (target : List Char) :
    (∀ (e : Event) (es : List Event) (s : SessionState),
      target.length ≤ s.current_pos → runSession target (e :: es) s = s) ∧
    ∀ es : List Event,
      (runSession target es initState).current_pos ≤ target.length + 1 := by
  constructor
  · intro e es s h
    rw [runSession_cons, if_neg (by omega)]
  · intro es
    exact runSession_pos_le target es initState (Nat.zero_le _)

/-- Witness for the amended C7: no event is consumed once the cursor is at the
end of the target. -/
theorem loop_guard_and_exit_bound_witness :
    runSession ['a'] [Event.printable 'q'] ⟨[' ', ' '], 2, 2, 1, fun _ => 0⟩ =
      ⟨[' ', ' '], 2, 2, 1, fun _ => 0⟩ :=
  (loop_guard_and_exit_bound ['a']).1 (Event.printable 'q') []
    ⟨[' ', ' '], 2, 2, 1, fun _ => 0⟩ (by decide)

/-- C8: the per-character render classification at absolute offset
`line_start + j` is Correct when typed-and-matching, Incorrect (carrying the
actually-typed character) when typed-and-different, PendingCursor when
untyped at the cursor, and Untouched otherwise; the synthetic end-of-line
marker is the pending cursor exactly when the cursor sits one past the line's
last character and the line is not the final one. -/
theorem render_classification_spec (typed : List Char) (current_pos line_start : ℕ)
    (line : List Char) (j : ℕ) (hj : j < line.length) (is_last : Bool) :
    (renderLine typed current_pos line_start line).getD j CharClass.untouched =
      (if line_start + j < typed.length then
        (if typed.getD (line_start + j) defCh = line.getD j defCh then
          CharClass.correct
        else CharClass.incorrect (typed.getD (line_start + j) defCh))
      else if line_start + j = current_pos then CharClass.pendingCursor
      else CharClass.untouched) ∧
    (lineHasEolCursor line_start line.length current_pos is_last = true ↔
      line_start + line.length = current_pos ∧ is_last = false) := by
  constructor
  · have hlen : j < ((List.range line.length).map
        (fun j => classifyChar typed current_pos (line_start + j)
          (line.getD j defCh))).length := by
      simpa using hj
    show ((List.range line.length).map
      (fun j => classifyChar typed current_pos (line_start + j)
        (line.getD j defCh))).getD j CharClass.untouched = _
    rw [List.getD_eq_getElem _ _ hlen]
    simp only [List.getElem_map, List.getElem_range]
    rfl
  · simp [lineHasEolCursor]

/-- Witness for C8 on a concrete line. -/
theorem render_classification_spec_witness :
    (renderLine ['a'] 1 0 ("ab".toList)).getD 1 CharClass.untouched =
      (if 0 + 1 < (['a'] : List Char).length then
        (if (['a'] : List Char).getD (0 + 1) defCh = ("ab".toList).getD 1 defCh then
          CharClass.correct
        else CharClass.incorrect ((['a'] : List Char).getD (0 + 1) defCh))
      else if 0 + 1 = 1 then CharClass.pendingCursor
      else CharClass.untouched) ∧
    (lineHasEolCursor 0 ("ab".toList).length 1 false = true ↔
      0 + ("ab".toList).length = 1 ∧ false = false) :=
  render_classification_spec ['a'] 1 0 ("ab".toList) 1 (by decide) false

/-- C9: the scroll window equals the centered-window formula of the
specification — `start = max(0, cursorLine - W/2)`,
`end = min(lineCount, start + W)`, with `start` pulled back to
`max(0, end - W)` when `end` reaches the line count, `W` being the terminal
height minus the 5 reserved header lines — and consequently the start is
never negative, the end never exceeds the line count, and the start is 0
whenever the line count is at most `W`. -/
theorem scroll_window_spec_correct (target : List Char) (pos : ℕ) (height : ℤ)
    (_hpos : pos ≤ target.length) :
    calculate_scroll_window target pos height =
      scrollWindowSpec ((splitNL target).length)
        (cursorLineAux (splitNL target) pos 0 0) (height - 5) ∧
    0 ≤ (calculate_scroll_window target pos height).1 ∧
    (calculate_scroll_window target pos height).2 ≤ ((splitNL target).length : ℤ) ∧
    (((splitNL target).length : ℤ) ≤ height - 5 →
      (calculate_scroll_window target pos height).1 = 0) := by
  have heq : calculate_scroll_window target pos height =
      scrollWindowSpec ((splitNL target).length)
        (cursorLineAux (splitNL target) pos 0 0) (height - 5) := rfl
  refine ⟨heq, ?_, ?_, ?_⟩
  · rw [heq]
    exact scrollWindowSpec_fst_nonneg _ _ _
  · rw [heq]
    exact scrollWindowSpec_snd_le _ _ _
  · intro h
    rw [heq]
    exact scrollWindowSpec_fst_eq_zero _ h

/-- Witness for C9 at a concrete target, cursor and terminal height. -/
theorem scroll_window_spec_correct_witness :
    calculate_scroll_window ("a\nb".toList) 1 30 =
      scrollWindowSpec ((splitNL ("a\nb".toList)).length)
        (cursorLineAux (splitNL ("a\nb".toList)) 1 0 0) (30 - 5) ∧
    0 ≤ (calculate_scroll_window ("a\nb".toList) 1 30).1 ∧
    (calculate_scroll_window ("a\nb".toList) 1 30).2 ≤
      ((splitNL ("a\nb".toList)).length : ℤ) ∧
    (((splitNL ("a\nb".toList)).length : ℤ) ≤ 30 - 5 →
      (calculate_scroll_window ("a\nb".toList) 1 30).1 = 0) :=
  scroll_window_spec_correct ("a\nb".toList) 1 30 (by decide)

/-- C10: after any run of the session loop every character with a non-zero
histogram count occurs in the target text — only in-range mismatches insert
histogram entries, so the key set is a subset of the target's characters. -/
theorem missed_histogram_support (target : List Char) (es : List Event) (c : Char)
    (h : (runSession target es initState).missed_chars c ≠ 0) : c ∈ target :=
  runSession_missed_support target es initState (fun _ hc => absurd rfl hc) c h

/-- Witness for C10: typing q against target `"ab"` records a miss on a. -/
theorem missed_histogram_support_witness : 'a' ∈ ("ab".toList) :=
  missed_histogram_support ("ab".toList) [Event.printable 'q'] 'a' (by decide)

end CodeDash
